import Mathlib

/-!
Verification of the Timeline Reconstruction & Temporal State Derivation Engine
(`analyze_bots.py`): the Event Store Reader (`get_all_events_for_publisher`),
date-range discovery (`get_date_range`) and the State Transition Interpreter /
Daily Materializer (`create_blocking_timeseries`), shallowly embedded in Lean.

Conventions of the embedding:
* A Python `datetime` is an `Instant`: a proleptic-Gregorian day number plus a
  second-of-day.  `datetime` comparison is lexicographic on
  (year, month, day, h, m, s), which corresponds exactly to lexicographic
  comparison on (day number, second-of-day); `.date()` comparison corresponds
  to comparison of the day numbers alone, and `+ timedelta(days = k)` to adding
  `k` to the day number.
* A JSON object field is `Option`-valued: `none` models an absent key.
* The JSON values appearing under `disallow` / `allow` are modelled by `DVal`,
  which records exactly the observations the source makes of such a value:
  whether it is a `dict`, what `.get('added')` returns on it (when it is a
  list of strings), and its Python truthiness.
* Exceptions escaping a routine (the uncaught `ValueError` of
  `datetime.strptime`) are modelled with `Except String`.
-/

/-- A point in time: proleptic Gregorian day number (see `daysFromCivil`)
and second within the day.  Models a Python `datetime`. -/
structure Instant where
  day : Nat
  sec : Nat
deriving DecidableEq

/-- `datetime` order (≤), i.e. lexicographic on (day, second). -/
def ile (a b : Instant) : Bool :=
  decide (a.day < b.day) || (decide (a.day = b.day) && decide (a.sec ≤ b.sec))

/-- `datetime` order (<), i.e. strict lexicographic on (day, second). -/
def ilt (a b : Instant) : Bool :=
  decide (a.day < b.day) || (decide (a.day = b.day) && decide (a.sec < b.sec))

/-- Gregorian leap-year test. -/
def isLeap (y : Nat) : Bool := (y % 4 = 0 && y % 100 ≠ 0) || y % 400 = 0

/-- Length of month `m` (1–12) in year `y`. -/
def daysInMonth (y m : Nat) : Nat :=
  if m = 2 then (if isLeap y then 29 else 28)
  else if m = 4 ∨ m = 6 ∨ m = 9 ∨ m = 11 then 30
  else 31

/-- Days of year `y` that precede the first day of month `m`. -/
def daysBeforeMonth (y m : Nat) : Nat :=
  ((List.range (m - 1)).map (fun i => daysInMonth y (i + 1))).sum

/-- Day number of the Gregorian date `y-m-d`, counted from 0001-01-01 = 0. -/
def daysFromCivil (y m d : Nat) : Nat :=
  (y - 1) * 365 + ((y - 1) / 4 - (y - 1) / 100 + (y - 1) / 400)
    + daysBeforeMonth y m + (d - 1)

/-- Numeric value of a digit character. -/
def digitVal (c : Char) : Nat := c.toNat - 48

/-- Natural number denoted by a digit string. -/
def strNat (cs : List Char) : Nat := cs.foldl (fun a c => a * 10 + digitVal c) 0

/-- `datetime.strptime(s, "%Y%m%d%H%M%S")`, on the event files' 14-digit
timestamp format: `some` instant on a valid timestamp, `none` when the parse
would raise `ValueError`. -/
def parseTs (s : String) : Option Instant :=
  let cs := s.toList
  if cs.length = 14 && cs.all (fun c => c.isDigit) then
    let y := strNat (cs.take 4)
    let mo := strNat ((cs.drop 4).take 2)
    let dy := strNat ((cs.drop 6).take 2)
    let h := strNat ((cs.drop 8).take 2)
    let mi := strNat ((cs.drop 10).take 2)
    let se := strNat ((cs.drop 12).take 2)
    if 1 ≤ y && 1 ≤ mo && mo ≤ 12 && 1 ≤ dy && dy ≤ daysInMonth y mo
        && h ≤ 23 && mi ≤ 59 && se ≤ 59 then
      some ⟨daysFromCivil y mo dy, h * 3600 + mi * 60 + se⟩
    else none
  else none

/-- A JSON value found under a `disallow` or `allow` key, as observed by the
source: either a dict — recording what `.get('added')` yields when it is a
string list, and whether the dict has further keys (for truthiness) — or a
non-dict value, of which only Python truthiness is observed. -/
inductive DVal where
  | dict (added : Option (List String)) (hasOther : Bool)
  | nondict (truthy : Bool)
deriving DecidableEq

/-- Python truthiness of an optional `disallow`/`allow` value
(`rule_change.get('disallow')` etc.); an absent key yields `None`, falsy. -/
def dtruthy : Option DVal → Bool
  | none => false
  | some (DVal.dict added hasOther) => added.isSome || hasOther
  | some (DVal.nondict t) => t

/-- `isinstance(d, dict) and d.get('added') == ['https://cnbc.com/']` where
`d = rule_change.get('disallow', {})`: the broad full-site disallow test of
lines 136–137. -/
def isFullSite : Option DVal → Bool
  | none => false
  | some (DVal.dict added _) => decide (added = some ["https://cnbc.com/"])
  | some (DVal.nondict _) => false

/-- One entry of `initial_content` or `rule_changes`: an optional
`user_agent`, `disallow` and `allow` (the `initial_content` code only ever
reads `user_agent` and `disallow`). -/
structure Rule where
  user_agent : Option String
  disallow : Option DVal
  allow : Option DVal
deriving DecidableEq

/-- One event of a publisher timeline.  Each field models the presence of the
corresponding JSON key with a value of the consumed shape. -/
structure Event where
  timestamp : Option String
  initial_content : Option (List Rule)
  rule_changes : Option (List Rule)
  agents_added : Option (List String)
  agents_removed : Option (List String)
deriving DecidableEq

/-- Sort key of the Reader: `x.get('timestamp', '')`. -/
def tsKey (e : Event) : String := e.timestamp.getD ""

/-- A per-bot Python dict `datetime -> bool`, as an insertion-ordered
association list with (invariantly) unique keys. -/
abbrev DictIB := List (Instant × Bool)

/-- Python dict assignment `d[k] = v`: overwrite in place if the key exists
(keeping its position), else append. -/
def dictInsert (d : DictIB) (k : Instant) (v : Bool) : DictIB :=
  if k ∈ d.map Prod.fst then
    d.map (fun p => if p.1 = k then (k, v) else p)
  else d ++ [(k, v)]

/-- Python dict lookup `d[k]`: the (unique) entry of key `k`. -/
def lookupI (d : DictIB) (k : Instant) : Option Bool :=
  match d with
  | [] => none
  | p :: t => if p.1 = k then some p.2 else lookupI t k

/-- `bot_blocking_history`: per-bot dict of instant → blocked. -/
abbrev Hist := String → DictIB

/-- `bot_blocking_history[bot][t] = v`. -/
def hupdate (h : Hist) (bot : String) (t : Instant) (v : Bool) : Hist :=
  fun b => if b = bot then dictInsert (h bot) t v else h b

/-- `{bot: {} for bot in bots}` (every bot starts with an empty dict). -/
def hist0 : Hist := fun _ => []

/-- Lines 121–128: processing of an `initial_content` baseline.  For every
tracked bot, `bot_blocked` is whether some rule names the bot with a truthy
`disallow`, and the bot's dict is assigned at the event instant. -/
def applyInit (bots : List String) (t : Instant) (L : List Rule) (h : Hist) : Hist :=
  bots.foldl
    (fun h bot =>
      hupdate h bot t
        (L.any (fun r => decide (r.user_agent = some bot) && dtruthy r.disallow)))
    h

/-- Lines 131–142: processing of one `rule_changes` entry. -/
def applyRuleChange (bots : List String) (t : Instant) (h : Hist) (rc : Rule) : Hist :=
  match rc.user_agent with
  | none => h
  | some a =>
    if a ∈ bots then
      if isFullSite rc.disallow then hupdate h a t true
      else if dtruthy rc.disallow then hupdate h a t true
      else if !dtruthy rc.disallow && !dtruthy rc.allow then hupdate h a t false
      else h
    else h

/-- Lines 153–159: the corroborating scan over one `rule_changes` entry of a
same-timestamp event, on behalf of an added agent. -/
def addScanRule (agent : String) (t : Instant) (h : Hist) (rc : Rule) : Hist :=
  if rc.user_agent = some agent then
    if isFullSite rc.disallow then hupdate h agent t true
    else if dtruthy rc.disallow then hupdate h agent t true
    else h
  else h

/-- Lines 151–159: the scan over one event of the whole timeline, kept when
its `timestamp` equals the current event's timestamp string. -/
def addScanEvent (agent : String) (ts : String) (t : Instant) (h : Hist) (ev : Event) : Hist :=
  if ev.timestamp = some ts then
    (ev.rule_changes.getD []).foldl (addScanRule agent t) h
  else h

/-- Lines 146–159: processing of one name of an `agents_added` list: when the
agent is tracked, scan the whole `timeline_data` for same-timestamp events and
their `rule_changes`. -/
def applyAddedAgent (bots : List String) (tl : List Event) (ts : String) (t : Instant)
    (h : Hist) (agent : String) : Hist :=
  if agent ∈ bots then tl.foldl (addScanEvent agent ts t) h else h

/-- Lines 163–166: processing of an `agents_removed` list. -/
def applyRemoved (bots : List String) (t : Instant) (h : Hist) (ags : List String) : Hist :=
  ags.foldl (fun h agent => if agent ∈ bots then hupdate h agent t false else h) h

/-- The `ValueError` text raised by `datetime.strptime` on a bad timestamp. -/
def errMsg (s : String) : String :=
  "ValueError: time data " ++ s ++ " does not match format %Y%m%d%H%M%S"

/-- Lines 113–166: processing of one event of the timeline.  An event whose
`timestamp` is absent or empty (falsy) is skipped; a present but unparsable
timestamp raises `ValueError` out of the loop; otherwise the four facets are
applied in source order (baseline, rule changes, agents added, agents
removed). -/
def processEvent (bots : List String) (tl : List Event) (h : Hist) (e : Event) :
    Except String Hist :=
  match e.timestamp with
  | none => Except.ok h
  | some s =>
    if s = "" then Except.ok h
    else
      match parseTs s with
      | none => Except.error (errMsg s)
      | some t =>
        let h1 := match e.initial_content with
          | some L => applyInit bots t L h
          | none => h
        let h2 := match e.rule_changes with
          | some rcs => rcs.foldl (applyRuleChange bots t) h1
          | none => h1
        let h3 := match e.agents_added with
          | some ags => ags.foldl (applyAddedAgent bots tl s t) h2
          | none => h2
        let h4 := match e.agents_removed with
          | some ags => applyRemoved bots t h3 ags
          | none => h3
        Except.ok h4

/-- The State Transition Interpreter: replay of the whole (sorted) timeline,
building `bot_blocking_history` from the empty per-bot dicts. -/
def interpretEvents (bots : List String) (tl : List Event) : Except String Hist :=
  tl.foldlM (fun h e => processEvent bots tl h e) hist0

deriving instance DecidableEq for Except

/-- The Reader's sort relation: comparison of the Python sort keys
`x.get('timestamp', '')` (Python string comparison is lexicographic by code
point, as is Lean's). -/
def evLe (a b : Event) : Prop := tsKey a ≤ tsKey b

instance : DecidableRel evLe := fun a b =>
  inferInstanceAs (Decidable (tsKey a ≤ tsKey b))

instance : IsTotal Event evLe := ⟨fun a b => le_total (tsKey a) (tsKey b)⟩

instance : IsTrans Event evLe := ⟨fun _ _ _ hab hbc => le_trans hab hbc⟩

/-- The outcome of reading one year partition: `none` when the file is
absent, unreadable or fails to parse (lines 40–47 swallow those conditions),
`some l` when it parses to the event list `l`. -/
def readPartition (p : Option (List Event)) : List Event := p.getD []

/-- Lines 27–51, the Event Store Reader: concatenate the events contributed
by each year partition, then sort by `x.get('timestamp', '')`.  Python's
`list.sort` is a stable sort by key; it is modelled by the (stable)
insertion sort. -/
def get_all_events_for_publisher (parts : List (Option (List Event))) : List Event :=
  List.insertionSort evLe ((parts.map readPartition).flatten)

/-- `datetime(1970, 1, 1)`, the initial value of `max_date`. -/
def epoch1970 : Instant := ⟨daysFromCivil 1970 1 1, 0⟩

/-- Lines 87–94, the body of `get_date_range`'s event loop: skip events with
a falsy timestamp, raise `ValueError` on an unparsable one, otherwise update
the running minimum and maximum. -/
def dateStep (acc : Instant × Instant) (e : Event) : Except String (Instant × Instant) :=
  match e.timestamp with
  | none => Except.ok acc
  | some s =>
    if s = "" then Except.ok acc
    else
      match parseTs s with
      | none => Except.error (errMsg s)
      | some t =>
        Except.ok
          (if ilt t acc.1 then t else acc.1,
           if ilt acc.2 t then t else acc.2)

/-- Lines 81–95, `get_date_range`: `min_date` starts at `datetime.now()`
(the `now` argument), `max_date` at `datetime(1970, 1, 1)`; every timestamped
event of every publisher updates them; the returned pair is
`(min_date, max_date if max_date > min_date else datetime.now())` — note the
fallback replaces only the second component. -/
def get_date_range (now : Instant) (pubs : List (List Event)) :
    Except String (Instant × Instant) :=
  (pubs.foldlM (fun acc (evs : List Event) => evs.foldlM dateStep acc) (now, epoch1970)).map
    (fun r => (r.1, if ilt r.1 r.2 then r.2 else now))

/-- The parsed instant of an event as used by `get_date_range`: `none` when
the timestamp is falsy (the event is skipped) or unparsable (which would
raise instead). -/
def tsOf (e : Event) : Option Instant :=
  match e.timestamp with
  | none => none
  | some s => if s = "" then none else parseTs s

/-- The parsed instants of all events with a truthy timestamp, in stream
order (used to state what the minimum/maximum range over). -/
def eventInstants (pubs : List (List Event)) : List Instant :=
  pubs.flatten.filterMap tsOf

/-- `sorted(l, reverse=True)[0]` on a list of `datetime`s: its maximum
(`none` on the empty list). -/
def maxInstant : List Instant → Option Instant
  | [] => none
  | a :: t => some (t.foldl (fun m x => if ilt m x then x else m) a)

/-- Lines 176–183: the daily status of one bot.  Among the recorded
transition instants whose date component does not exceed the current day,
take the greatest; the emitted value is `1` if the dict holds `True` there,
else `0`; with no qualifying instant, `0`. -/
def dayStatus (d : DictIB) (day : Nat) : Nat :=
  match maxInstant ((d.map Prod.fst).filter (fun t => decide (t.day ≤ day))) with
  | none => 0
  | some m => if (lookupI d m).getD false then 1 else 0

/-- `bot_categories.get(bot, 'Unknown')` (line 185). -/
def lookupCat (cats : List (String × String)) (b : String) : String :=
  (cats.lookup b).getD "Unknown"

/-- One output row `date,publisher,bot_name,bot_category,is_blocked`; the
date is carried as its day number. -/
structure DailyRecord where
  date : Nat
  publisher : String
  bot_name : String
  bot_category : String
  is_blocked : Nat
deriving DecidableEq

/-- `(end_date - start_date).days`: floor of the difference in days
(`timedelta.days` floors). -/
def totalDaysI (a b : Instant) : Int :=
  (((b.day : Int) * 86400 + b.sec) - ((a.day : Int) * 86400 + a.sec)).fdiv 86400

/-- Lines 169–185, the Daily Materializer for one publisher: for each
`day_delta` in `range(total_days + 1)` and each bot, emit one record for
`start_date + timedelta(days=day_delta)` (whose date component is
`start_date.day + day_delta`). -/
def materialize (pub : String) (cats : List (String × String)) (bots : List String)
    (hist : Hist) (start_date end_date : Instant) : List DailyRecord :=
  (((List.range (totalDaysI start_date end_date + 1).toNat).map
    (fun k =>
      bots.map
        (fun bot =>
          { date := start_date.day + k
            publisher := pub
            bot_name := bot
            bot_category := lookupCat cats bot
            is_blocked := dayStatus (hist bot) (start_date.day + k) : DailyRecord })))).flatten

/-! ### Basic facts about instants and per-bot dicts -/

theorem ile_iff (a b : Instant) :
    ile a b = true ↔ a.day < b.day ∨ (a.day = b.day ∧ a.sec ≤ b.sec) := by
  simp [ile]

theorem ilt_iff (a b : Instant) :
    ilt a b = true ↔ a.day < b.day ∨ (a.day = b.day ∧ a.sec < b.sec) := by
  simp [ilt]

theorem ile_refl (a : Instant) : ile a a = true := by simp [ile_iff]

theorem ile_trans {a b c : Instant} (h1 : ile a b = true) (h2 : ile b c = true) :
    ile a c = true := by
  rw [ile_iff] at h1 h2 ⊢; omega

theorem not_ilt_iff (a b : Instant) : ilt a b = false ↔ ile b a = true := by
  rw [← Bool.not_eq_true, ilt_iff, ile_iff]; omega

theorem ilt_to_ile {a b : Instant} (h : ilt a b = true) : ile a b = true := by
  rw [ilt_iff] at h; rw [ile_iff]; omega

theorem ile_antisymm {a b : Instant} (h1 : ile a b = true) (h2 : ile b a = true) :
    a = b := by
  rw [ile_iff] at h1 h2
  cases a; cases b
  simp only [Instant.mk.injEq]
  simp only at h1 h2
  omega

theorem lookup_mapReplace_ne (d : DictIB) (k k2 : Instant) (v : Bool)
    (hne : k2 ≠ k) :
    lookupI (d.map (fun p => if p.1 = k then (k, v) else p)) k2 = lookupI d k2 := by
  induction d with
  | nil => rfl
  | cons p t ih =>
    by_cases hk : p.1 = k
    · have h1 : ¬ k = k2 := fun he => hne he.symm
      have h2 : ¬ p.1 = k2 := by rw [hk]; exact h1
      simp [lookupI, hk, h1, h2, ih]
    · by_cases hp2 : p.1 = k2
      · simp only [List.map_cons, if_neg hk, lookupI, if_pos hp2]
      · simp only [List.map_cons, if_neg hk, lookupI, if_neg hp2]
        exact ih

theorem lookup_append_single_ne (d : DictIB) (k k2 : Instant) (v : Bool)
    (hne : k2 ≠ k) : lookupI (d ++ [(k, v)]) k2 = lookupI d k2 := by
  induction d with
  | nil =>
    have h1 : ¬ k = k2 := fun he => hne he.symm
    simp [lookupI, h1]
  | cons p t ih =>
    by_cases hp2 : p.1 = k2
    · simp only [List.cons_append, lookupI, if_pos hp2]
    · simp only [List.cons_append, lookupI, if_neg hp2]
      exact ih

theorem lookupI_dictInsert (d : DictIB) (k : Instant) (v : Bool) :
    lookupI (dictInsert d k v) k = some v := by
  unfold dictInsert
  by_cases hc : k ∈ d.map Prod.fst
  · rw [if_pos hc]
    induction d with
    | nil => simp at hc
    | cons p t ih =>
      by_cases hk : p.1 = k
      · simp [lookupI, hk]
      · have hc2 : k ∈ t.map Prod.fst := by
          rcases (List.mem_cons).mp hc with h | h
          · exact absurd h.symm hk
          · exact h
        simp only [List.map_cons, if_neg hk, lookupI]
        exact ih hc2
  · rw [if_neg hc]
    induction d with
    | nil => simp [lookupI]
    | cons p t ih =>
      have hk : ¬ p.1 = k := fun he => hc (by simp [he])
      have hc2 : k ∉ t.map Prod.fst := fun hm => hc (by simp [hm])
      simp only [List.cons_append, lookupI, if_neg hk]
      exact ih hc2

theorem lookupI_dictInsert_ne (d : DictIB) (k k2 : Instant) (v : Bool)
    (hne : k2 ≠ k) : lookupI (dictInsert d k v) k2 = lookupI d k2 := by
  unfold dictInsert
  by_cases hc : k ∈ d.map Prod.fst
  · rw [if_pos hc]; exact lookup_mapReplace_ne d k k2 v hne
  · rw [if_neg hc]; exact lookup_append_single_ne d k k2 v hne

theorem hupdate_self (h : Hist) (bot : String) (t : Instant) (v : Bool) :
    hupdate h bot t v bot = dictInsert (h bot) t v := by
  simp [hupdate]

theorem hupdate_ne (h : Hist) (bot : String) (t : Instant) (v : Bool)
    (b : String) (hb : b ≠ bot) : hupdate h bot t v b = h b := by
  simp [hupdate, hb]

theorem lookupI_eq_of_mem (d : DictIB) (p : Instant × Bool)
    (hnd : (d.map Prod.fst).Nodup) (hp : p ∈ d) : lookupI d p.1 = some p.2 := by
  induction d with
  | nil => simp at hp
  | cons q t ih =>
    rcases (List.mem_cons).mp hp with hp | hp
    · subst hp; simp [lookupI]
    · have hkey : ¬ q.1 = p.1 := by
        intro he
        have hm : p.1 ∈ t.map Prod.fst := List.mem_map_of_mem Prod.fst hp
        rw [← he] at hm
        exact (List.nodup_cons.mp hnd).1 hm
      simp only [lookupI, if_neg hkey]
      exact ih (List.nodup_cons.mp hnd).2 hp

/-! ### Interpreter lemmas -/

theorem applyInit_not_mem (bots : List String) (t : Instant) (L : List Rule)
    (h : Hist) (b : String) (hb : b ∉ bots) : applyInit bots t L h b = h b := by
  induction bots generalizing h with
  | nil => rfl
  | cons a rest ih =>
    have hba : b ≠ a := fun he => hb (he ▸ List.mem_cons_self a rest)
    have hbr : b ∉ rest := fun hm => hb (List.mem_cons_of_mem a hm)
    calc applyInit (a :: rest) t L h b
        = applyInit rest t L (hupdate h a t _) b := rfl
      _ = hupdate h a t _ b := ih _ hbr
      _ = h b := hupdate_ne h a t _ b hba

theorem applyInit_mem (bots : List String) (t : Instant) (L : List Rule)
    (h : Hist) (b : String) (hnd : bots.Nodup) (hb : b ∈ bots) :
    applyInit bots t L h b
      = dictInsert (h b) t
          (L.any (fun r => decide (r.user_agent = some b) && dtruthy r.disallow)) := by
  induction bots generalizing h with
  | nil => simp at hb
  | cons a rest ih =>
    rcases List.mem_cons.mp hb with hba | hbr
    · subst hba
      have hbr : b ∉ rest := (List.nodup_cons.mp hnd).1
      calc applyInit (b :: rest) t L h b
          = applyInit rest t L (hupdate h b t _) b := rfl
        _ = hupdate h b t _ b := applyInit_not_mem rest t L _ b hbr
        _ = dictInsert (h b) t _ := hupdate_self h b t _
    · have hba : b ≠ a := by
        intro he
        exact (List.nodup_cons.mp hnd).1 (he ▸ hbr)
      calc applyInit (a :: rest) t L h b
          = applyInit rest t L (hupdate h a t _) b := rfl
        _ = dictInsert (hupdate h a t _ b) t _ := ih _ (List.nodup_cons.mp hnd).2 hbr
        _ = dictInsert (h b) t _ := by rw [hupdate_ne h a t _ b hba]

theorem applyRemoved_preserve (bots : List String) (t : Instant) (ags : List String)
    (h : Hist) (b : String) (hb : lookupI (h b) t = some false) :
    lookupI (applyRemoved bots t h ags b) t = some false := by
  induction ags generalizing h with
  | nil => exact hb
  | cons a rest ih =>
    apply ih
    by_cases ha : a ∈ bots
    · simp only [applyRemoved, List.foldl_cons, if_pos ha]
      by_cases hba : b = a
      · subst hba; rw [hupdate_self]; exact lookupI_dictInsert _ t false
      · rw [hupdate_ne h a t false b hba]; exact hb
    · simpa only [applyRemoved, List.foldl_cons, if_neg ha] using hb

theorem applyRemoved_writes (bots : List String) (t : Instant) (ags : List String)
    (h : Hist) (b : String) (hmem : b ∈ ags) (hbots : b ∈ bots) :
    lookupI (applyRemoved bots t h ags b) t = some false := by
  induction ags generalizing h with
  | nil => simp at hmem
  | cons a rest ih =>
    rcases List.mem_cons.mp hmem with hba | hbr
    · subst hba
      have step : lookupI ((if b ∈ bots then hupdate h b t false else h) b) t
          = some false := by
        rw [if_pos hbots, hupdate_self]
        exact lookupI_dictInsert _ t false
      exact applyRemoved_preserve bots t rest _ b step
    · exact ih _ hbr

theorem foldl_congr_id {α β : Type} (l : List β) (f : α → β → α) (a : α)
    (hf : ∀ b ∈ l, ∀ x, f x b = x) : l.foldl f a = a := by
  induction l generalizing a with
  | nil => rfl
  | cons b rest ih =>
    rw [List.foldl_cons, hf b (List.mem_cons_self b rest) a]
    exact ih a (fun c hc x => hf c (List.mem_cons_of_mem b hc) x)

theorem addScanRule_preserve (agent : String) (t : Instant) (h : Hist) (rc : Rule)
    (hb : lookupI (h agent) t = some true) :
    lookupI (addScanRule agent t h rc agent) t = some true := by
  unfold addScanRule
  split
  · split
    · rw [hupdate_self]; exact lookupI_dictInsert _ t true
    · split
      · rw [hupdate_self]; exact lookupI_dictInsert _ t true
      · exact hb
  · exact hb

theorem addScanRules_preserve (agent : String) (t : Instant) (rcs : List Rule)
    (h : Hist) (hb : lookupI (h agent) t = some true) :
    lookupI ((rcs.foldl (addScanRule agent t) h) agent) t = some true := by
  induction rcs generalizing h with
  | nil => exact hb
  | cons rc rest ih => exact ih _ (addScanRule_preserve agent t h rc hb)

theorem addScanRule_write (agent : String) (t : Instant) (h : Hist) (rc : Rule)
    (hua : rc.user_agent = some agent)
    (hd : (isFullSite rc.disallow || dtruthy rc.disallow) = true) :
    lookupI (addScanRule agent t h rc agent) t = some true := by
  unfold addScanRule
  rw [if_pos hua]
  by_cases h1 : isFullSite rc.disallow = true
  · simp only [h1, if_true, hupdate_self]
    exact lookupI_dictInsert _ t true
  · have h2 : dtruthy rc.disallow = true := by
      rcases (by simpa using hd :
          isFullSite rc.disallow = true ∨ dtruthy rc.disallow = true) with hx | hx
      · exact absurd hx h1
      · exact hx
    simp only [h1, h2, if_true, if_false, Bool.false_eq_true, hupdate_self]
    exact lookupI_dictInsert _ t true

theorem addScanRules_writes (agent : String) (t : Instant) (rcs : List Rule)
    (h : Hist)
    (hx : ∃ rc ∈ rcs, rc.user_agent = some agent
        ∧ (isFullSite rc.disallow || dtruthy rc.disallow) = true) :
    lookupI ((rcs.foldl (addScanRule agent t) h) agent) t = some true := by
  induction rcs generalizing h with
  | nil => obtain ⟨rc, hmem, _, _⟩ := hx; simp at hmem
  | cons r rest ih =>
    obtain ⟨rc, hmem, hua, hd⟩ := hx
    rcases List.mem_cons.mp hmem with he | he
    · subst he
      exact addScanRules_preserve agent t rest _ (addScanRule_write agent t h rc hua hd)
    · exact ih _ ⟨rc, he, hua, hd⟩

theorem addScanEvent_preserve (agent ts : String) (t : Instant) (h : Hist)
    (ev : Event) (hb : lookupI (h agent) t = some true) :
    lookupI (addScanEvent agent ts t h ev agent) t = some true := by
  unfold addScanEvent
  split
  · exact addScanRules_preserve agent t _ h hb
  · exact hb

theorem addScanEvents_preserve (agent ts : String) (t : Instant) (tl : List Event)
    (h : Hist) (hb : lookupI (h agent) t = some true) :
    lookupI ((tl.foldl (addScanEvent agent ts t) h) agent) t = some true := by
  induction tl generalizing h with
  | nil => exact hb
  | cons ev rest ih => exact ih _ (addScanEvent_preserve agent ts t h ev hb)

theorem addScanEvents_writes (agent ts : String) (t : Instant) (tl : List Event)
    (h : Hist)
    (hx : ∃ ev ∈ tl, ev.timestamp = some ts
        ∧ ∃ rc ∈ ev.rule_changes.getD [], rc.user_agent = some agent
            ∧ (isFullSite rc.disallow || dtruthy rc.disallow) = true) :
    lookupI ((tl.foldl (addScanEvent agent ts t) h) agent) t = some true := by
  induction tl generalizing h with
  | nil => obtain ⟨ev, hmem, _, _⟩ := hx; simp at hmem
  | cons e rest ih =>
    obtain ⟨ev, hmem, hts, hrc⟩ := hx
    rcases List.mem_cons.mp hmem with he | he
    · subst he
      have step : lookupI ((addScanEvent agent ts t h ev) agent) t = some true := by
        unfold addScanEvent
        rw [if_pos hts]
        exact addScanRules_writes agent t _ h hrc
      exact addScanEvents_preserve agent ts t rest _ step
    · exact ih _ ⟨ev, he, hts, hrc⟩

theorem applyAddedAgent_writes (bots : List String) (tl : List Event)
    (ts : String) (t : Instant) (h : Hist) (agent : String)
    (hbots : agent ∈ bots)
    (hx : ∃ ev ∈ tl, ev.timestamp = some ts
        ∧ ∃ rc ∈ ev.rule_changes.getD [], rc.user_agent = some agent
            ∧ (isFullSite rc.disallow || dtruthy rc.disallow) = true) :
    lookupI (applyAddedAgent bots tl ts t h agent agent) t = some true := by
  unfold applyAddedAgent
  rw [if_pos hbots]
  exact addScanEvents_writes agent ts t tl h hx

theorem addScanRule_id (agent : String) (t : Instant) (h : Hist) (rc : Rule)
    (hno : rc.user_agent = some agent →
      isFullSite rc.disallow = false ∧ dtruthy rc.disallow = false) :
    addScanRule agent t h rc = h := by
  unfold addScanRule
  by_cases hua : rc.user_agent = some agent
  · obtain ⟨h1, h2⟩ := hno hua
    simp [hua, h1, h2]
  · rw [if_neg hua]

theorem addScanEvent_id (agent ts : String) (t : Instant) (h : Hist) (ev : Event)
    (hno : ev.timestamp = some ts →
      ∀ rc ∈ ev.rule_changes.getD [], rc.user_agent = some agent →
        isFullSite rc.disallow = false ∧ dtruthy rc.disallow = false) :
    addScanEvent agent ts t h ev = h := by
  unfold addScanEvent
  by_cases hts : ev.timestamp = some ts
  · rw [if_pos hts]
    exact foldl_congr_id _ _ h
      (fun rc hm x => addScanRule_id agent t x rc (fun hua => hno hts rc hm hua))
  · rw [if_neg hts]

theorem applyAddedAgent_no_write (bots : List String) (tl : List Event)
    (ts : String) (t : Instant) (h : Hist) (agent : String)
    (hno : ∀ ev ∈ tl, ev.timestamp = some ts →
      ∀ rc ∈ ev.rule_changes.getD [], rc.user_agent = some agent →
        isFullSite rc.disallow = false ∧ dtruthy rc.disallow = false) :
    applyAddedAgent bots tl ts t h agent = h := by
  unfold applyAddedAgent
  by_cases hbots : agent ∈ bots
  · rw [if_pos hbots]
    exact foldl_congr_id _ _ h
      (fun ev hm x => addScanEvent_id agent ts t x ev (fun hts => hno ev hm hts))
  · rw [if_neg hbots]

@[simp] theorem dtruthy_none : dtruthy none = false := rfl

@[simp] theorem isFullSite_none : isFullSite none = false := rfl

/-! ### Claim C2 -/

/-- C2, counterexample.  The claim states that tracked bots absent from the
baseline receive no transition from an `initial_content` event.  On a
baseline event with an empty rule list, the interpreter nevertheless records
the transition `(instant, false)` for the tracked bot `GPTBot`, so the bot's
transition dict is not empty as the claim would require. -/
theorem C2_counterexample :
    (interpretEvents ["GPTBot"]
        [{ timestamp := some "20230101000000", initial_content := some [],
           rule_changes := none, agents_added := none, agents_removed := none }]).map
      (fun h => h "GPTBot")
      = Except.ok [(⟨daysFromCivil 2023 1 1, 0⟩, false)]
    ∧ ([(⟨daysFromCivil 2023 1 1, 0⟩, false)] : DictIB) ≠ [] :=
  ⟨by decide, by decide⟩

/-- C2, amended.  When the interpreter processes an `initial_content` event,
EVERY tracked bot receives a transition at the event's instant: `true` iff
some baseline rule names the bot with a truthy disallow, and `false`
otherwise — in particular a tracked bot absent from the baseline receives
`blocked = false` (not "no transition"). -/
theorem C2_baseline_assigns_every_bot (bots : List String) (tl : List Event)
    (h : Hist) (s : String) (L : List Rule) (t : Instant) (b : String)
    (hs : s ≠ "") (hp : parseTs s = some t) (hnd : bots.Nodup) (hb : b ∈ bots) :
    (processEvent bots tl h
        { timestamp := some s, initial_content := some L,
          rule_changes := none, agents_added := none, agents_removed := none }).map
      (fun h2 => h2 b)
      = Except.ok (dictInsert (h b) t
          (L.any (fun r => decide (r.user_agent = some b) && dtruthy r.disallow)))
    ∧ ((L.any (fun r => decide (r.user_agent = some b) && dtruthy r.disallow)) = true
        ↔ ∃ r ∈ L, r.user_agent = some b ∧ dtruthy r.disallow = true) := by
  constructor
  · have hstep : processEvent bots tl h
        { timestamp := some s, initial_content := some L,
          rule_changes := none, agents_added := none, agents_removed := none }
        = Except.ok (applyInit bots t L h) := by
      simp [processEvent, hs, hp]
    rw [hstep]
    simp only [Except.map]
    rw [applyInit_mem bots t L h b hnd hb]
  · simp [List.any_eq_true]

/-- C2 witness: a concrete baseline with one disallow rule for `GPTBot`,
tracked set `["GPTBot"]`. -/
theorem C2_witness :
    ("20230101000000" : String) ≠ ""
    ∧ parseTs "20230101000000" = some ⟨daysFromCivil 2023 1 1, 0⟩
    ∧ (["GPTBot"] : List String).Nodup
    ∧ ((processEvent ["GPTBot"] [] hist0
          { timestamp := some "20230101000000",
            initial_content := some [Rule.mk (some "GPTBot") (some (DVal.nondict true)) none],
            rule_changes := none, agents_added := none, agents_removed := none }).map
        (fun h2 => h2 "GPTBot")
        = Except.ok (dictInsert (hist0 "GPTBot") ⟨daysFromCivil 2023 1 1, 0⟩
            ([Rule.mk (some "GPTBot") (some (DVal.nondict true)) none].any
              (fun r => decide (r.user_agent = some "GPTBot") && dtruthy r.disallow)))
      ∧ (([Rule.mk (some "GPTBot") (some (DVal.nondict true)) none].any
            (fun r => decide (r.user_agent = some "GPTBot") && dtruthy r.disallow)) = true
          ↔ ∃ r ∈ [Rule.mk (some "GPTBot") (some (DVal.nondict true)) none],
              r.user_agent = some "GPTBot" ∧ dtruthy r.disallow = true)) :=
  ⟨by decide, by decide, by decide,
    C2_baseline_assigns_every_bot ["GPTBot"] [] hist0 "20230101000000"
      [Rule.mk (some "GPTBot") (some (DVal.nondict true)) none] ⟨daysFromCivil 2023 1 1, 0⟩
      "GPTBot" (by decide) (by decide) (by decide) (by decide)⟩

/-! ### Claim C3 -/

/-- C3: resolution order for one `rule_changes` entry naming a tracked bot.
The hypothesis `hallow` restricts the `allow` value to the input schema of
the event files (§6 of the spec: an allow value, when present, is a plain
truthy value or an object with an `added` array — hence truthy).
(1) a full-site disallow delta emits `blocked = true` regardless of allow;
(2) otherwise a truthy disallow emits `blocked = true`;
(3) with neither an allow nor a disallow value present, `blocked = false`;
(4) with only an allow value present, no transition. -/
theorem C3_rule_change_resolution (bots : List String) (t : Instant) (h : Hist)
    (rc : Rule) (a : String) (hua : rc.user_agent = some a) (ha : a ∈ bots)
    (hallow : rc.allow = none ∨ dtruthy rc.allow = true) :
    (isFullSite rc.disallow = true →
      applyRuleChange bots t h rc = hupdate h a t true)
    ∧ (isFullSite rc.disallow = false → dtruthy rc.disallow = true →
      applyRuleChange bots t h rc = hupdate h a t true)
    ∧ (rc.disallow = none → rc.allow = none →
      applyRuleChange bots t h rc = hupdate h a t false)
    ∧ (rc.disallow = none → rc.allow ≠ none →
      applyRuleChange bots t h rc = h) := by
  refine ⟨?_, ?_, ?_, ?_⟩
  · intro hfull
    unfold applyRuleChange
    rw [hua]
    simp [ha, hfull]
  · intro hfull htruthy
    unfold applyRuleChange
    rw [hua]
    simp [ha, hfull, htruthy]
  · intro hd hal
    unfold applyRuleChange
    rw [hua]
    simp [ha, hd, hal]
  · intro hd hal
    have htruthy : dtruthy rc.allow = true := by
      rcases hallow with hx | hx
      · exact absurd hx hal
      · exact hx
    unfold applyRuleChange
    rw [hua]
    simp [ha, hd, htruthy]

/-- C3 witness: an empty (no-op) rule change for a tracked bot emits
`blocked = false`. -/
theorem C3_witness :
    (⟨some "X", none, none⟩ : Rule).user_agent = some "X"
    ∧ "X" ∈ (["X"] : List String)
    ∧ ((isFullSite (none : Option DVal) = true →
        applyRuleChange ["X"] ⟨0, 0⟩ hist0 ⟨some "X", none, none⟩
          = hupdate hist0 "X" ⟨0, 0⟩ true)
      ∧ (isFullSite (none : Option DVal) = false → dtruthy none = true →
        applyRuleChange ["X"] ⟨0, 0⟩ hist0 ⟨some "X", none, none⟩
          = hupdate hist0 "X" ⟨0, 0⟩ true)
      ∧ ((none : Option DVal) = none → (none : Option DVal) = none →
        applyRuleChange ["X"] ⟨0, 0⟩ hist0 ⟨some "X", none, none⟩
          = hupdate hist0 "X" ⟨0, 0⟩ false)
      ∧ ((none : Option DVal) = none → (none : Option DVal) ≠ none →
        applyRuleChange ["X"] ⟨0, 0⟩ hist0 ⟨some "X", none, none⟩ = hist0)) :=
  ⟨rfl, by decide,
    C3_rule_change_resolution ["X"] ⟨0, 0⟩ hist0 ⟨some "X", none, none⟩ "X"
      rfl (by decide) (Or.inl rfl)⟩

/-! ### Claim C4 -/

/-- C4, counterexample.  The claim makes an `agents_removed` entry
authoritative over ANY same-instant `rule_changes` signal for the same bot.
Here a removal event and a rule-change event carry the same timestamp; the
rule-change event is processed later in the stream, so the final recorded
value at that instant is `true`, not the `false` the claim requires. -/
theorem C4_counterexample :
    (interpretEvents ["GPTBot"]
        [{ timestamp := some "20230101000000", initial_content := none,
           rule_changes := none, agents_added := none,
           agents_removed := some ["GPTBot"] },
         { timestamp := some "20230101000000", initial_content := none,
           rule_changes := some [Rule.mk (some "GPTBot") (some (DVal.nondict true)) none],
           agents_added := none, agents_removed := none }]).map
      (fun h => lookupI (h "GPTBot") ⟨daysFromCivil 2023 1 1, 0⟩)
      = Except.ok (some true)
    ∧ (some true : Option Bool) ≠ some false :=
  ⟨by decide, by decide⟩

/-- C4, amended.  Within the event carrying it, an `agents_removed` entry is
authoritative: it is processed after the event's baseline, rule-change and
agent-added facets, so after the interpreter processes that event the bot's
recorded value at the event's instant is `false`, whatever the other facets
of the same event said.  (A rule-change or agent-added signal of a LATER
event with the same instant can still overwrite it, as the counterexample
shows.) -/
theorem C4_removal_wins_within_event (bots : List String) (tl : List Event)
    (h : Hist) (e : Event) (s : String) (t : Instant) (ags : List String)
    (b : String) (hts : e.timestamp = some s) (hs : s ≠ "")
    (hp : parseTs s = some t) (hrem : e.agents_removed = some ags)
    (hmem : b ∈ ags) (hbots : b ∈ bots) :
    (processEvent bots tl h e).map (fun h2 => lookupI (h2 b) t)
      = Except.ok (some false) := by
  obtain ⟨ts, ic, rcs, aa, ar⟩ := e
  simp only at hts hrem
  subst hts
  subst hrem
  simp only [processEvent, hp, if_neg hs, Except.map]
  exact congrArg Except.ok (applyRemoved_writes bots t ags _ b hmem hbots)

/-- C4 witness: a single event that both adds a blocking rule change and
removes the agent; the removal wins. -/
theorem C4_witness :
    (Event.mk (some "20230101000000") none
        (some [Rule.mk (some "GPTBot") (some (DVal.nondict true)) none])
        none (some ["GPTBot"])).timestamp = some "20230101000000"
    ∧ parseTs "20230101000000" = some ⟨daysFromCivil 2023 1 1, 0⟩
    ∧ (processEvent ["GPTBot"] [] hist0
        (Event.mk (some "20230101000000") none
          (some [Rule.mk (some "GPTBot") (some (DVal.nondict true)) none])
          none (some ["GPTBot"]))).map
        (fun h2 => lookupI (h2 "GPTBot") ⟨daysFromCivil 2023 1 1, 0⟩)
        = Except.ok (some false) :=
  ⟨rfl, by decide,
    C4_removal_wins_within_event ["GPTBot"] [] hist0
      (Event.mk (some "20230101000000") none
        (some [Rule.mk (some "GPTBot") (some (DVal.nondict true)) none])
        none (some ["GPTBot"]))
      "20230101000000" ⟨daysFromCivil 2023 1 1, 0⟩ ["GPTBot"] "GPTBot"
      rfl (by decide) (by decide) rfl (by decide) (by decide)⟩

/-! ### Claim C5 -/

/-- C5, counterexample.  The claim requires the corroborating `rule_changes`
entry to live in the SAME event as the `agents_added` entry.  Here the first
event carries a blocking rule change and a removal of the bot (net effect at
the instant: `false`); the second event, with the same timestamp, carries
only `agents_added`.  Under the claim the second event would emit nothing and
the final value would stay `false`; the code scans the whole timeline for the
matching timestamp, finds the first event's rule change, and re-records
`true`. -/
theorem C5_counterexample :
    (interpretEvents ["GPTBot"]
        [{ timestamp := some "20230101000000", initial_content := none,
           rule_changes := some [Rule.mk (some "GPTBot") (some (DVal.nondict true)) none],
           agents_added := none, agents_removed := some ["GPTBot"] },
         { timestamp := some "20230101000000", initial_content := none,
           rule_changes := none, agents_added := some ["GPTBot"],
           agents_removed := none }]).map
      (fun h => lookupI (h "GPTBot") ⟨daysFromCivil 2023 1 1, 0⟩)
      = Except.ok (some true)
    ∧ (some true : Option Bool) ≠ some false :=
  ⟨by decide, by decide⟩

/-- C5, amended.  For a tracked bot named in an `agents_added` list, the
corroborating disallow is sought among the `rule_changes` entries of EVERY
event of the timeline whose timestamp string equals the current event's
timestamp (not only the same event).  If any such entry names the bot and
indicates a disallow (full-site delta or truthy value), `blocked = true` is
recorded at the instant; if no same-timestamp rule-change entry for the bot
indicates a disallow, the agent-added processing changes nothing. -/
theorem C5_added_agent_corroboration (bots : List String) (tl : List Event)
    (ts : String) (t : Instant) (h : Hist) (agent : String)
    (hbots : agent ∈ bots) :
    ((∃ ev ∈ tl, ev.timestamp = some ts
        ∧ ∃ rc ∈ ev.rule_changes.getD [], rc.user_agent = some agent
            ∧ (isFullSite rc.disallow || dtruthy rc.disallow) = true) →
      lookupI (applyAddedAgent bots tl ts t h agent agent) t = some true)
    ∧ ((∀ ev ∈ tl, ev.timestamp = some ts →
        ∀ rc ∈ ev.rule_changes.getD [], rc.user_agent = some agent →
          isFullSite rc.disallow = false ∧ dtruthy rc.disallow = false) →
      applyAddedAgent bots tl ts t h agent = h) :=
  ⟨fun hx => applyAddedAgent_writes bots tl ts t h agent hbots hx,
   fun hno => applyAddedAgent_no_write bots tl ts t h agent hno⟩

/-- C5 witness: the corroborating rule change lives in a different event with
the same timestamp; the added agent is recorded as blocked. -/
theorem C5_witness :
    "GPTBot" ∈ (["GPTBot"] : List String)
    ∧ ((∃ ev ∈ [Event.mk (some "20230101000000") none
            (some [Rule.mk (some "GPTBot") (some (DVal.nondict true)) none]) none none],
          ev.timestamp = some "20230101000000"
          ∧ ∃ rc ∈ ev.rule_changes.getD [], rc.user_agent = some "GPTBot"
              ∧ (isFullSite rc.disallow || dtruthy rc.disallow) = true) →
        lookupI (applyAddedAgent ["GPTBot"]
            [Event.mk (some "20230101000000") none
              (some [Rule.mk (some "GPTBot") (some (DVal.nondict true)) none]) none none]
            "20230101000000" ⟨daysFromCivil 2023 1 1, 0⟩ hist0 "GPTBot" "GPTBot")
          ⟨daysFromCivil 2023 1 1, 0⟩ = some true)
    ∧ ((∀ ev ∈ [Event.mk (some "20230101000000") none
            (some [Rule.mk (some "GPTBot") (some (DVal.nondict true)) none]) none none],
          ev.timestamp = some "20230101000000" →
          ∀ rc ∈ ev.rule_changes.getD [], rc.user_agent = some "GPTBot" →
            isFullSite rc.disallow = false ∧ dtruthy rc.disallow = false) →
        applyAddedAgent ["GPTBot"]
            [Event.mk (some "20230101000000") none
              (some [Rule.mk (some "GPTBot") (some (DVal.nondict true)) none]) none none]
            "20230101000000" ⟨daysFromCivil 2023 1 1, 0⟩ hist0 "GPTBot" = hist0) :=
  ⟨by decide,
    (C5_added_agent_corroboration ["GPTBot"]
      [Event.mk (some "20230101000000") none
        (some [Rule.mk (some "GPTBot") (some (DVal.nondict true)) none]) none none]
      "20230101000000" ⟨daysFromCivil 2023 1 1, 0⟩ hist0 "GPTBot" (by decide)).1,
    (C5_added_agent_corroboration ["GPTBot"]
      [Event.mk (some "20230101000000") none
        (some [Rule.mk (some "GPTBot") (some (DVal.nondict true)) none]) none none]
      "20230101000000" ⟨daysFromCivil 2023 1 1, 0⟩ hist0 "GPTBot" (by decide)).2⟩

/-! ### Claim C8 -/

/-- C8: a year partition that is absent, unreadable or unparsable (modelled
as a `none` partition, the outcome the `try/except` of lines 40–47 maps all
three conditions to) contributes exactly zero events: the Reader's result on
a partition list containing it equals the result without it, so every other
partition's contribution is unchanged, and the Reader — a total function —
never propagates a failure. -/
theorem C8_failed_partition_contributes_nothing
    (xs ys : List (Option (List Event))) :
    get_all_events_for_publisher (xs ++ none :: ys)
      = get_all_events_for_publisher (xs ++ ys) := by
  unfold get_all_events_for_publisher
  simp [readPartition]

/-! ### Claim C9 -/

/-- C9 (code bug): an event whose `timestamp` is present but not a valid
`YYYYMMDDHHMMSS` string is NOT skipped: `datetime.strptime` raises an
uncaught `ValueError` out of both `create_blocking_timeseries` (line 118)
and `get_date_range` (line 90), terminating the whole batch run, contrary to
the claim (and the spec's error-handling design, §7). -/
theorem C9_invalid_timestamp_is_fatal :
    interpretEvents ["GPTBot"]
        [{ timestamp := some "notadate", initial_content := none,
           rule_changes := none, agents_added := none, agents_removed := none }]
      = Except.error (errMsg "notadate")
    ∧ get_date_range ⟨800000, 0⟩
        [[{ timestamp := some "notadate", initial_content := none,
            rule_changes := none, agents_added := none, agents_removed := none }]]
      = Except.error (errMsg "notadate") :=
  ⟨rfl, rfl⟩

/-! ### Claim C10 -/

/-- C10: every record the Daily Materializer emits for a bot absent from the
bot-category registry carries the literal string "Unknown" as its category
(`bot_categories.get(bot, 'Unknown')`, line 185). -/
theorem C10_unknown_category (pub : String) (cats : List (String × String))
    (bots : List String) (hist : Hist) (sd ed : Instant) (b : String)
    (hb : cats.lookup b = none) :
    ∀ r ∈ materialize pub cats bots hist sd ed,
      r.bot_name = b → r.bot_category = "Unknown" := by
  intro r hr hname
  simp only [materialize, List.mem_flatten, List.mem_map] at hr
  obtain ⟨l, ⟨k, hk, hl⟩, hrl⟩ := hr
  subst hl
  simp only [List.mem_map] at hrl
  obtain ⟨bot, hbot, hr2⟩ := hrl
  subst hr2
  simp only at hname
  subst hname
  simp [lookupCat, hb]

/-- C10 witness. -/
theorem C10_witness :
    ([] : List (String × String)).lookup "X" = none
    ∧ ∀ r ∈ materialize "p" [] ["X"] hist0 ⟨0, 0⟩ ⟨0, 0⟩,
        r.bot_name = "X" → r.bot_category = "Unknown" :=
  ⟨rfl, C10_unknown_category "p" [] ["X"] hist0 ⟨0, 0⟩ ⟨0, 0⟩ "X" rfl⟩

/-! ### Claim C7 -/

theorem empty_le_string (s : String) : "" ≤ s := by
  rw [String.le_iff_toList_le]
  have h0 : ("" : String).toList = [] := rfl
  rw [h0]
  exact List.nil_le

theorem le_empty_string {s : String} (h : s ≤ "") : s = "" :=
  le_antisymm h (empty_le_string s)

theorem filter_orderedInsert_pos (k : String) (a : Event) (l : List Event)
    (ha : tsKey a = k) :
    (List.orderedInsert evLe a l).filter (fun e => decide (tsKey e = k))
      = a :: l.filter (fun e => decide (tsKey e = k)) := by
  induction l with
  | nil => simp [List.orderedInsert, ha]
  | cons b t ih =>
    by_cases hr : evLe a b
    · simp [List.orderedInsert, hr, ha]
    · have hb : ¬ tsKey b = k := by
        intro he
        apply hr
        show tsKey a ≤ tsKey b
        rw [ha, he]
      simp only [List.orderedInsert, if_neg hr, List.filter_cons,
        decide_eq_true_eq, hb, if_false]
      simp only [ih, List.filter_cons, decide_eq_true_eq, hb, if_false]

theorem filter_orderedInsert_neg (k : String) (a : Event) (l : List Event)
    (ha : ¬ tsKey a = k) :
    (List.orderedInsert evLe a l).filter (fun e => decide (tsKey e = k))
      = l.filter (fun e => decide (tsKey e = k)) := by
  induction l with
  | nil => simp [List.orderedInsert, ha]
  | cons b t ih =>
    by_cases hr : evLe a b
    · simp [List.orderedInsert, hr, ha]
    · simp only [List.orderedInsert, if_neg hr, List.filter_cons]
      rw [ih]

theorem filter_insertionSort (k : String) (l : List Event) :
    (List.insertionSort evLe l).filter (fun e => decide (tsKey e = k))
      = l.filter (fun e => decide (tsKey e = k)) := by
  induction l with
  | nil => rfl
  | cons a t ih =>
    by_cases ha : tsKey a = k
    · rw [List.insertionSort, filter_orderedInsert_pos k a _ ha, ih]
      simp [List.filter_cons, ha]
    · rw [List.insertionSort, filter_orderedInsert_neg k a _ ha, ih]
      simp [List.filter_cons, ha]

/-- C7: the Event Store Reader returns the concatenation of all partitions'
events (b: a permutation of the concatenation), globally sorted ascending by
the timestamp key across all partitions (a), stably — events with equal keys
keep their encounter order, stated as preservation of every equal-key
subsequence (c) — and events lacking a timestamp (key `""`, the minimum
string) sort before all timestamped events (d). -/
theorem C7_reader_sorted_stable (parts : List (Option (List Event))) :
    List.Sorted evLe (get_all_events_for_publisher parts)
    ∧ (get_all_events_for_publisher parts).Perm ((parts.map readPartition).flatten)
    ∧ (∀ k : String,
        (get_all_events_for_publisher parts).filter (fun e => decide (tsKey e = k))
          = ((parts.map readPartition).flatten).filter (fun e => decide (tsKey e = k)))
    ∧ (get_all_events_for_publisher parts).Pairwise
        (fun a b => b.timestamp = none → tsKey a = "") := by
  refine ⟨List.sorted_insertionSort evLe _, List.perm_insertionSort evLe _,
    fun k => filter_insertionSort k _, ?_⟩
  have hs : List.Pairwise evLe (get_all_events_for_publisher parts) :=
    List.sorted_insertionSort evLe _
  refine hs.imp ?_
  intro a b hab hbn
  have hbk : tsKey b = "" := by simp [tsKey, hbn]
  have hab2 : tsKey a ≤ tsKey b := hab
  rw [hbk] at hab2
  exact le_empty_string hab2

/-! ### Claim C6 -/

/-- C6, counterexample.  With exactly one timestamped event (instant `t`,
strictly before "now"), the claim requires the window `(t, t)` — the global
min and max coincide.  The code returns `(t, now)` instead: the expression
`max_date if max_date > min_date else datetime.now()` replaces the end bound
by "now" whenever the maximum does not STRICTLY exceed the minimum. -/
theorem C6_counterexample :
    get_date_range ⟨800000, 0⟩
        [[{ timestamp := some "20230101000000", initial_content := none,
            rule_changes := none, agents_added := none, agents_removed := none }]]
      = Except.ok (⟨daysFromCivil 2023 1 1, 0⟩, ⟨800000, 0⟩)
    ∧ (⟨800000, 0⟩ : Instant) ≠ ⟨daysFromCivil 2023 1 1, 0⟩ :=
  ⟨by decide, by decide⟩

theorem nested_foldlM_eq_flatten (pubs : List (List Event))
    (acc0 : Instant × Instant) :
    pubs.foldlM (fun acc (evs : List Event) => evs.foldlM dateStep acc) acc0
      = pubs.flatten.foldlM dateStep acc0 := by
  induction pubs generalizing acc0 with
  | nil => rfl
  | cons l rest ih =>
    rw [List.foldlM_cons, List.flatten_cons, List.foldlM_append]
    cases hx : l.foldlM dateStep acc0 with
    | error e => rfl
    | ok acc2 => exact ih acc2

theorem dateStep_ok (acc : Instant × Instant) (e : Event) (r : Instant × Instant)
    (h : dateStep acc e = Except.ok r) :
    (tsOf e = none ∧ r = acc)
    ∨ (∃ t, tsOf e = some t
        ∧ r = (if ilt t acc.1 then t else acc.1, if ilt acc.2 t then t else acc.2)) := by
  unfold dateStep at h
  unfold tsOf
  cases hts : e.timestamp with
  | none =>
    rw [hts] at h
    dsimp only at h
    injection h with h
    exact Or.inl ⟨rfl, h.symm⟩
  | some s =>
    rw [hts] at h
    dsimp only at h ⊢
    by_cases hs : s = ""
    · rw [if_pos hs] at h ⊢
      injection h with h
      exact Or.inl ⟨rfl, h.symm⟩
    · rw [if_neg hs] at h ⊢
      cases hp : parseTs s with
      | none => rw [hp] at h; exact absurd h (by simp)
      | some t =>
        rw [hp] at h
        injection h with h
        exact Or.inr ⟨t, rfl, h.symm⟩

theorem min_step_le_left (t a : Instant) : ile (if ilt t a then t else a) a = true := by
  by_cases h : ilt t a = true
  · rw [if_pos h]; exact ilt_to_ile h
  · rw [if_neg h]; exact ile_refl a

theorem min_step_le_right (t a : Instant) : ile (if ilt t a then t else a) t = true := by
  by_cases h : ilt t a = true
  · rw [if_pos h]; exact ile_refl t
  · rw [if_neg h]
    rw [Bool.not_eq_true] at h
    exact (not_ilt_iff t a).mp h

theorem min_step_cases (t a : Instant) :
    (if ilt t a then t else a) = t ∨ (if ilt t a then t else a) = a := by
  by_cases h : ilt t a = true
  · rw [if_pos h]; exact Or.inl rfl
  · rw [if_neg h]; exact Or.inr rfl

theorem max_step_ge_left (t a : Instant) : ile a (if ilt a t then t else a) = true := by
  by_cases h : ilt a t = true
  · rw [if_pos h]; exact ilt_to_ile h
  · rw [if_neg h]; exact ile_refl a

theorem max_step_ge_right (t a : Instant) : ile t (if ilt a t then t else a) = true := by
  by_cases h : ilt a t = true
  · rw [if_pos h]; exact ile_refl t
  · rw [if_neg h]
    rw [Bool.not_eq_true] at h
    exact (not_ilt_iff a t).mp h

theorem max_step_cases (t a : Instant) :
    (if ilt a t then t else a) = t ∨ (if ilt a t then t else a) = a := by
  by_cases h : ilt a t = true
  · rw [if_pos h]; exact Or.inl rfl
  · rw [if_neg h]; exact Or.inr rfl

/-- Running bounds of the `get_date_range` fold: the first component is a
lower bound of the initial accumulator and all parsed instants and is one of
them; dually for the second component (an upper bound). -/
theorem dateRange_fold_bounds (l : List Event) (acc : Instant × Instant)
    (r : Instant × Instant) (h : l.foldlM dateStep acc = Except.ok r) :
    (ile r.1 acc.1 = true ∧ (r.1 = acc.1 ∨ r.1 ∈ l.filterMap tsOf)
      ∧ ∀ u ∈ l.filterMap tsOf, ile r.1 u = true)
    ∧ (ile acc.2 r.2 = true ∧ (r.2 = acc.2 ∨ r.2 ∈ l.filterMap tsOf)
      ∧ ∀ u ∈ l.filterMap tsOf, ile u r.2 = true) := by
  induction l generalizing acc with
  | nil =>
    simp only [List.foldlM_nil] at h
    have hh : Except.ok (ε := String) acc = Except.ok r := h
    injection hh with hh
    subst hh
    simp [ile_refl]
  | cons e rest ih =>
    rw [List.foldlM_cons] at h
    cases hx : dateStep acc e with
    | error err =>
      rw [hx] at h
      have hh : Except.error (α := Instant × Instant) err = Except.ok r := h
      exact Except.noConfusion hh
    | ok acc2 =>
      rw [hx] at h
      have hh : rest.foldlM dateStep acc2 = Except.ok r := h
      have H := ih acc2 hh
      obtain ⟨⟨h1a, h1b, h1c⟩, ⟨h2a, h2b, h2c⟩⟩ := H
      rcases dateStep_ok acc e acc2 hx with ⟨hnone, hacc⟩ | ⟨t, hsome, hacc⟩
      · subst hacc
        rw [List.filterMap_cons, hnone]
        exact ⟨⟨h1a, h1b, h1c⟩, ⟨h2a, h2b, h2c⟩⟩
      · subst hacc
        rw [List.filterMap_cons, hsome]
        refine ⟨⟨?_, ?_, ?_⟩, ⟨?_, ?_, ?_⟩⟩
        · exact ile_trans h1a (min_step_le_left t acc.1)
        · rcases h1b with hb | hb
          · rcases min_step_cases t acc.1 with hm | hm
            · rw [hm] at hb
              exact Or.inr (hb ▸ List.mem_cons_self t _)
            · rw [hm] at hb
              exact Or.inl hb
          · exact Or.inr (List.mem_cons_of_mem t hb)
        · intro u hu
          rcases List.mem_cons.mp hu with hu | hu
          · subst hu
            exact ile_trans h1a (min_step_le_right u acc.1)
          · exact h1c u hu
        · exact ile_trans (max_step_ge_left t acc.2) h2a
        · rcases h2b with hb | hb
          · rcases max_step_cases t acc.2 with hm | hm
            · rw [hm] at hb
              exact Or.inr (hb ▸ List.mem_cons_self t _)
            · rw [hm] at hb
              exact Or.inl hb
          · exact Or.inr (List.mem_cons_of_mem t hb)
        · intro u hu
          rcases List.mem_cons.mp hu with hu | hu
          · subst hu
            exact ile_trans (max_step_ge_right u acc.2) h2a
          · exact h2c u hu

/-- C6, amended.  The start bound is the true minimum of "now" and all
parsed timestamps (a lower bound that is attained).  The end bound is "now"
whenever the running maximum (seeded with the 1970-01-01 sentinel) does not
strictly exceed the start bound — in particular with no timestamped events
both bounds are "now", and with a single timestamped event the end falls
back to "now"; otherwise the end bound is that maximum: the sentinel or an
attained upper bound of all parsed timestamps. -/
theorem C6_date_range_bounds (now : Instant) (pubs : List (List Event))
    (a b : Instant) (h : get_date_range now pubs = Except.ok (a, b)) :
    (ile a now = true ∧ (a = now ∨ a ∈ eventInstants pubs)
      ∧ ∀ u ∈ eventInstants pubs, ile a u = true)
    ∧ (b = now
       ∨ ((b = epoch1970 ∨ b ∈ eventInstants pubs)
          ∧ (∀ u ∈ eventInstants pubs, ile u b = true) ∧ ilt a b = true)) := by
  unfold get_date_range at h
  rw [nested_foldlM_eq_flatten] at h
  cases hr : pubs.flatten.foldlM dateStep (now, epoch1970) with
  | error err =>
    rw [hr] at h
    exact absurd h (by simp [Except.map])
  | ok r =>
    rw [hr] at h
    simp only [Except.map] at h
    injection h with h
    have h1 : r.1 = a := congrArg Prod.fst h
    have h2 : (if ilt r.1 r.2 then r.2 else now) = b := congrArg Prod.snd h
    obtain ⟨⟨ha1, ha2, ha3⟩, ⟨hb1, hb2, hb3⟩⟩ := dateRange_fold_bounds _ _ _ hr
    subst h1
    constructor
    · exact ⟨ha1, ha2, ha3⟩
    · by_cases hlt : ilt r.1 r.2 = true
      · rw [if_pos hlt] at h2
        subst h2
        exact Or.inr ⟨hb2, hb3, hlt⟩
      · rw [if_neg hlt] at h2
        exact Or.inl h2.symm

/-- A one-event publisher set used to exercise `get_date_range`. -/
def pubs6 : List (List Event) :=
  [[{ timestamp := some "20230102030405", initial_content := none,
      rule_changes := none, agents_added := none, agents_removed := none }]]

/-- The instant `2023-01-02 03:04:05`. -/
def t6 : Instant := ⟨daysFromCivil 2023 1 2, 3 * 3600 + 4 * 60 + 5⟩

/-- C6 witness: one publisher with one timestamped event. -/
theorem C6_witness :
    get_date_range ⟨800000, 0⟩ pubs6 = Except.ok (t6, ⟨800000, 0⟩)
    ∧ ((ile t6 ⟨800000, 0⟩ = true
        ∧ (t6 = ⟨800000, 0⟩ ∨ t6 ∈ eventInstants pubs6)
        ∧ ∀ u ∈ eventInstants pubs6, ile t6 u = true)
      ∧ ((⟨800000, 0⟩ : Instant) = ⟨800000, 0⟩
         ∨ (((⟨800000, 0⟩ : Instant) = epoch1970
              ∨ (⟨800000, 0⟩ : Instant) ∈ eventInstants pubs6)
            ∧ (∀ u ∈ eventInstants pubs6, ile u ⟨800000, 0⟩ = true)
            ∧ ilt t6 ⟨800000, 0⟩ = true))) :=
  ⟨by decide, C6_date_range_bounds ⟨800000, 0⟩ pubs6 t6 ⟨800000, 0⟩ (by decide)⟩

/-! ### Claim C1 -/

theorem foldl_imax_mem (l : List Instant) (a : Instant) :
    l.foldl (fun m x => if ilt m x then x else m) a = a
    ∨ l.foldl (fun m x => if ilt m x then x else m) a ∈ l := by
  induction l generalizing a with
  | nil => exact Or.inl rfl
  | cons x t ih =>
    rw [List.foldl_cons]
    rcases ih (if ilt a x then x else a) with hc | hc
    · rw [hc]
      rcases max_step_cases x a with hm | hm
      · rw [hm]; exact Or.inr (List.mem_cons_self x t)
      · rw [hm]; exact Or.inl rfl
    · exact Or.inr (List.mem_cons_of_mem x hc)

theorem foldl_imax_ub (l : List Instant) (a : Instant) :
    ile a (l.foldl (fun m x => if ilt m x then x else m) a) = true
    ∧ ∀ x ∈ l, ile x (l.foldl (fun m x => if ilt m x then x else m) a) = true := by
  induction l generalizing a with
  | nil => exact ⟨ile_refl a, by simp⟩
  | cons x t ih =>
    rw [List.foldl_cons]
    obtain ⟨iha, ihx⟩ := ih (if ilt a x then x else a)
    refine ⟨ile_trans (max_step_ge_left x a) iha, ?_⟩
    intro y hy
    rcases List.mem_cons.mp hy with hy | hy
    · subst hy
      exact ile_trans (max_step_ge_right y a) iha
    · exact ihx y hy

theorem maxInstant_spec (l : List Instant) (hne : l ≠ []) :
    ∃ m, maxInstant l = some m ∧ m ∈ l ∧ ∀ x ∈ l, ile x m = true := by
  cases l with
  | nil => exact absurd rfl hne
  | cons a t =>
    refine ⟨t.foldl (fun m x => if ilt m x then x else m) a, rfl, ?_, ?_⟩
    · rcases foldl_imax_mem t a with hc | hc
      · rw [hc]; exact List.mem_cons_self a t
      · exact List.mem_cons_of_mem a hc
    · intro x hx
      obtain ⟨ha, hall⟩ := foldl_imax_ub t a
      rcases List.mem_cons.mp hx with hx | hx
      · subst hx; exact ha
      · exact hall x hx

theorem dayStatus_no_qual (d : DictIB) (day : Nat)
    (hq : ∀ p ∈ d, ¬ p.1.day ≤ day) : dayStatus d day = 0 := by
  unfold dayStatus
  have hfil : (d.map Prod.fst).filter (fun t => decide (t.day ≤ day)) = [] := by
    rw [List.filter_eq_nil_iff]
    intro x hx
    simp only [List.mem_map] at hx
    obtain ⟨p, hp, hpx⟩ := hx
    subst hpx
    simpa using hq p hp
  rw [hfil]
  rfl

theorem dayStatus_eq_max (d : DictIB) (day : Nat) (p : Instant × Bool)
    (hnd : (d.map Prod.fst).Nodup) (hp : p ∈ d) (hq : p.1.day ≤ day)
    (hmax : ∀ q ∈ d, q.1.day ≤ day → ile q.1 p.1 = true) :
    dayStatus d day = if p.2 then 1 else 0 := by
  unfold dayStatus
  have hpfil : p.1 ∈ (d.map Prod.fst).filter (fun t => decide (t.day ≤ day)) :=
    List.mem_filter.mpr ⟨List.mem_map_of_mem Prod.fst hp, by simpa using hq⟩
  have hne : (d.map Prod.fst).filter (fun t => decide (t.day ≤ day)) ≠ [] := by
    intro h0
    rw [h0] at hpfil
    exact List.not_mem_nil _ hpfil
  obtain ⟨m, hm, hmem, hub⟩ := maxInstant_spec _ hne
  have hmp : m = p.1 := by
    apply ile_antisymm
    · obtain ⟨hmm, hmd⟩ := List.mem_filter.mp hmem
      obtain ⟨q, hqd, hqm⟩ := List.mem_map.mp hmm
      have hqday : q.1.day ≤ day := by
        rw [hqm]
        exact of_decide_eq_true hmd
      exact hqm ▸ hmax q hqd hqday
    · exact hub p.1 hpfil
  rw [hm]
  dsimp only
  rw [hmp, lookupI_eq_of_mem d p hnd hp]
  cases hpb : p.2 <;> simp [hpb]

theorem mem_materialize (pub : String) (cats : List (String × String))
    (bots : List String) (hist : Hist) (sd ed : Instant) (r : DailyRecord)
    (hr : r ∈ materialize pub cats bots hist sd ed) :
    ∃ k, k ∈ List.range (totalDaysI sd ed + 1).toNat ∧ ∃ bot ∈ bots,
      r = ⟨sd.day + k, pub, bot, lookupCat cats bot,
            dayStatus (hist bot) (sd.day + k)⟩ := by
  simp only [materialize, List.mem_flatten, List.mem_map] at hr
  obtain ⟨l, ⟨k, hk, hl⟩, hrl⟩ := hr
  subst hl
  simp only [List.mem_map] at hrl
  obtain ⟨bot, hbot, hr2⟩ := hrl
  exact ⟨k, hk, bot, hbot, hr2.symm⟩

theorem sum_range_indicator (n m : Nat) :
    ((List.range n).map (fun k => if k = m then 1 else 0)).sum
      = if m < n then 1 else 0 := by
  induction n with
  | zero => simp
  | succ n ih =>
    rw [List.range_succ, List.map_append, List.sum_append, ih]
    by_cases h : m < n
    · have h2 : ¬ n = m := by omega
      have h3 : m < n + 1 := by omega
      simp [h, h2, h3]
    · by_cases h2 : n = m
      · subst h2
        simp [h, Nat.lt_succ_self]
      · have h3 : ¬ m < n + 1 := by omega
        simp [h, h2, h3]

theorem totalDays_whole_days (sd ed : Instant) (hs : sd.sec = 0) (he : ed.sec = 0)
    (hle : sd.day ≤ ed.day) :
    (totalDaysI sd ed + 1).toNat = ed.day - sd.day + 1 := by
  unfold totalDaysI
  rw [hs, he]
  have hstep : ((ed.day : Int) * 86400 + (0 : Nat)) - ((sd.day : Int) * 86400 + (0 : Nat))
      = ((ed.day : Int) - sd.day) * 86400 := by push_cast; ring
  rw [hstep, Int.mul_fdiv_cancel _ (by norm_num)]
  omega

theorem count_day_batch (pub : String) (cats : List (String × String))
    (bots : List String) (hist : Hist) (sd : Instant) (k : Nat) (b : String)
    (d : Nat) (hbots : bots.Nodup) (hb : b ∈ bots) :
    (bots.map (fun bot =>
        ({ date := sd.day + k, publisher := pub, bot_name := bot,
           bot_category := lookupCat cats bot,
           is_blocked := dayStatus (hist bot) (sd.day + k) } : DailyRecord))).countP
        (fun r => r.bot_name == b && r.date == d)
      = if sd.day + k = d then 1 else 0 := by
  rw [List.countP_map]
  by_cases hkd : sd.day + k = d
  · rw [if_pos hkd]
    rw [List.countP_congr (q := fun bot => bot == b)
      (by intro bot _; simp [Function.comp, hkd])]
    have hcnt : List.count b bots = 1 := List.count_eq_one_of_mem hbots hb
    exact hcnt
  · rw [if_neg hkd]
    rw [List.countP_congr (q := fun _ => false)
      (by intro bot _; simp [Function.comp, hkd])]
    simp

/-- C1: given a per-bot transition dict, a tracked-bot list and a whole-day
closed window (the Materializer's contract inputs, §4.3: "inclusive, whole
days"), the Daily Materializer emits exactly one record per (bot, day) for
every calendar day of `[start, end]`, and that record's `is_blocked` is `0`
when the bot has no transition whose date component is at most the day, and
otherwise mirrors the boolean of the transition with the greatest instant
among those (1 for `true`, 0 for `false`). -/
theorem C1_daily_materializer (pub : String) (cats : List (String × String))
    (bots : List String) (hist : Hist) (sd ed : Instant) (b : String) (d : Nat)
    (hbots : bots.Nodup) (hb : b ∈ bots)
    (hnd : ((hist b).map Prod.fst).Nodup)
    (hs : sd.sec = 0) (he : ed.sec = 0)
    (hd1 : sd.day ≤ d) (hd2 : d ≤ ed.day) :
    (materialize pub cats bots hist sd ed).countP
        (fun r => r.bot_name == b && r.date == d) = 1
    ∧ ∀ r ∈ materialize pub cats bots hist sd ed,
        r.bot_name = b → r.date = d →
        ((∀ p ∈ hist b, ¬ p.1.day ≤ d) → r.is_blocked = 0)
        ∧ (∀ p ∈ hist b, p.1.day ≤ d →
            (∀ q ∈ hist b, q.1.day ≤ d → ile q.1 p.1 = true) →
            r.is_blocked = if p.2 then 1 else 0) := by
  have hn : (totalDaysI sd ed + 1).toNat = ed.day - sd.day + 1 :=
    totalDays_whole_days sd ed hs he (le_trans hd1 hd2)
  constructor
  · unfold materialize
    rw [List.countP_flatten, List.map_map]
    have hmapeq :
        (List.range (totalDaysI sd ed + 1).toNat).map
            ((fun l : List DailyRecord =>
                l.countP (fun r => r.bot_name == b && r.date == d)) ∘
              (fun k => bots.map (fun bot =>
                ({ date := sd.day + k, publisher := pub, bot_name := bot,
                   bot_category := lookupCat cats bot,
                   is_blocked := dayStatus (hist bot) (sd.day + k) } : DailyRecord))))
          = (List.range (totalDaysI sd ed + 1).toNat).map
              (fun k => if k = d - sd.day then 1 else 0) := by
      apply List.map_congr_left
      intro k _
      simp only [Function.comp]
      rw [count_day_batch pub cats bots hist sd k b d hbots hb]
      by_cases hkd : sd.day + k = d
      · rw [if_pos hkd, if_pos (by omega)]
      · rw [if_neg hkd, if_neg (by omega)]
    rw [hmapeq, sum_range_indicator]
    rw [if_pos (by omega)]
  · intro r hr hname hdate
    obtain ⟨k, hk, bot, hbot, hrec⟩ :=
      mem_materialize pub cats bots hist sd ed r hr
    subst hrec
    dsimp only at hname hdate ⊢
    subst hname
    constructor
    · intro hq
      rw [hdate]
      exact dayStatus_no_qual (hist bot) d hq
    · intro p hp hpq hpmax
      rw [hdate]
      exact dayStatus_eq_max (hist bot) d p hnd hp hpq hpmax

/-- A one-transition history used to exercise the Materializer:
bot `X` blocked from instant (day 6, 01:00:00). -/
def hist1 : Hist := hupdate hist0 "X" ⟨6, 3600⟩ true

/-- C1 witness: window `[day 5, day 7]` (whole days), bot `X`, day 7. -/
theorem C1_witness :
    (["X"] : List String).Nodup
    ∧ ((hist1 "X").map Prod.fst).Nodup
    ∧ ((materialize "p" [] ["X"] hist1 ⟨5, 0⟩ ⟨7, 0⟩).countP
          (fun r => r.bot_name == "X" && r.date == 7) = 1
      ∧ ∀ r ∈ materialize "p" [] ["X"] hist1 ⟨5, 0⟩ ⟨7, 0⟩,
          r.bot_name = "X" → r.date = 7 →
          ((∀ p ∈ hist1 "X", ¬ p.1.day ≤ 7) → r.is_blocked = 0)
          ∧ (∀ p ∈ hist1 "X", p.1.day ≤ 7 →
              (∀ q ∈ hist1 "X", q.1.day ≤ 7 → ile q.1 p.1 = true) →
              r.is_blocked = if p.2 then 1 else 0)) :=
  ⟨by decide, by decide,
    C1_daily_materializer "p" [] ["X"] hist1 ⟨5, 0⟩ ⟨7, 0⟩ "X" 7
      (by decide) (by decide) (by decide) rfl rfl (by decide) (by decide)⟩
